import Mathlib

/-!
# Verification of the personal-assistant intent resolver and guarded input loop

Shallow embedding of `src/personal-assist.py`: the similarity scorer
(`similar`, which delegates to Python's `difflib.SequenceMatcher.ratio()`),
the static intent catalog and resolver (`suggest_command`), the guarded
input loop produced by the `handle_user_input` decorator, the field
validator classes, and the add-contact flow of `main`.

Similarity scores are modelled as exact rationals: `ratio()` computes
`2.0 * M / T` with integer `M`, `T`; equal rationals always round to equal
doubles, and the magnitudes occurring here are far below any range where
double rounding could reorder a comparison.
-/

set_option maxRecDepth 100000
set_option maxHeartbeats 1000000

namespace PersonalAssist

/-! ## difflib.SequenceMatcher

The source's `similar(a, b)` is `SequenceMatcher(None, a, b).ratio()`.
We transcribe CPython's `difflib` for that configuration (`isjunk=None`,
`autojunk=True`).  Strings are lists of characters; out-of-range reads never
happen on the paths difflib takes, so list reads use `getD` with a dummy
default. -/

/-- All indices of occurrences of `c` in `b`, ascending: the `b2j` lists
built by `SequenceMatcher.__chain_b` before the autojunk purge. -/
def positions (b : List Char) (c : Char) : List Nat :=
  (List.range b.length).filter (fun j => b.getD j ' ' = c)

/-- The purged `b2j` table of `SequenceMatcher.__chain_b`: with `isjunk=None`
there is no junk purge, and with `autojunk=True`, when `len(b) >= 200`,
"popular" elements (more than `len(b) // 100 + 1` occurrences) are dropped. -/
def b2j (b : List Char) (c : Char) : List Nat :=
  let ps := positions b c
  if 200 ≤ b.length ∧ b.length / 100 + 1 < ps.length then [] else ps

/-- With `isjunk=None` the junk set `bjunk` of `__chain_b` is empty. -/
def bjunk : Char → Bool := fun _ => false

/-- The inner `for j in b2j.get(a[i], nothing)` loop of
`SequenceMatcher.find_longest_match`: skips `j < blo`, breaks at `j >= bhi`,
otherwise sets `k = j2len.get(j-1, 0) + 1`, records it in `newj2len[j]`, and
updates the best block when `k > bestsize`.  State: the new row `nj` and the
best block `(besti, bestj, bestsize)`. -/
def innerJ (blo bhi i : Nat) :
    List Nat → (Nat → Nat) → (Nat → Nat) → Nat × Nat × Nat →
    (Nat → Nat) × (Nat × Nat × Nat)
  | [], _, nj, best => (nj, best)
  | j :: js, j2l, nj, best =>
    if j < blo then innerJ blo bhi i js j2l nj best
    else if bhi ≤ j then (nj, best)
    else
      let k := (if j = 0 then 0 else j2l (j - 1)) + 1
      let nj' := fun t => if t = j then k else nj t
      let best' := if best.2.2 < k then (i + 1 - k, j + 1 - k, k) else best
      innerJ blo bhi i js j2l nj' best'

/-- The outer `for i in range(alo, ahi)` dynamic-programming loop of
`find_longest_match`; each row starts from an empty `newj2len`. -/
def flmLoop (a b : List Char) (alo ahi blo bhi : Nat) :
    (Nat → Nat) × (Nat × Nat × Nat) :=
  (List.range' alo (ahi - alo)).foldl
    (fun acc i => innerJ blo bhi i (b2j b (a.getD i ' ')) acc.1 (fun _ => 0) acc.2)
    (fun _ => 0, (alo, blo, 0))

/-- One of the two leftward `while` extension loops of `find_longest_match`:
while `besti > alo and bestj > blo and keep(b[bestj-1]) and
a[besti-1] == b[bestj-1]`, grow the block one step to the left.
(`keep` is `not isbjunk(.)` for the first loop, `isbjunk(.)` for the third.) -/
def extLeft (a b : List Char) (alo blo : Nat) (keep : Char → Bool) :
    Nat → Nat → Nat → Nat × Nat × Nat
  | 0, bj, bs => (0, bj, bs)
  | bi + 1, bj, bs =>
    if alo < bi + 1 ∧ blo < bj ∧ keep (b.getD (bj - 1) ' ') = true ∧
        a.getD bi ' ' = b.getD (bj - 1) ' ' then
      extLeft a b alo blo keep bi (bj - 1) (bs + 1)
    else (bi + 1, bj, bs)

/-- One of the two rightward `while` extension loops of `find_longest_match`:
while `besti+bestsize < ahi and bestj+bestsize < bhi and
keep(b[bestj+bestsize]) and a[besti+bestsize] == b[bestj+bestsize]`, grow the
block.  `fuel` bounds the iteration count; every call supplies `fuel = ahi`,
which dominates the number of possible increments. -/
def extRight (a b : List Char) (ahi bhi : Nat) (keep : Char → Bool)
    (bi bj : Nat) : Nat → Nat → Nat
  | 0, bs => bs
  | fuel + 1, bs =>
    if bi + bs < ahi ∧ bj + bs < bhi ∧ keep (b.getD (bj + bs) ' ') = true ∧
        a.getD (bi + bs) ' ' = b.getD (bj + bs) ' ' then
      extRight a b ahi bhi keep bi bj fuel (bs + 1)
    else bs

/-- `SequenceMatcher.find_longest_match(alo, ahi, blo, bhi)`: the DP loop,
then the four extension loops (non-junk left, non-junk right, junk left,
junk right; with `isjunk=None` the junk set is empty). -/
def find_longest_match (a b : List Char) (alo ahi blo bhi : Nat) :
    Nat × Nat × Nat :=
  let s0 := (flmLoop a b alo ahi blo bhi).2
  let s1 := extLeft a b alo blo (fun c => !bjunk c) s0.1 s0.2.1 s0.2.2
  let s2 := (s1.1, s1.2.1, extRight a b ahi bhi (fun c => !bjunk c) s1.1 s1.2.1 ahi s1.2.2)
  let s3 := extLeft a b alo blo bjunk s2.1 s2.2.1 s2.2.2
  (s3.1, s3.2.1, extRight a b ahi bhi bjunk s3.1 s3.2.1 ahi s3.2.2)

/-- The recursion of `SequenceMatcher.get_matching_blocks`, which repeatedly
splits around the longest match; a subrange is explored only when nonempty on
both sides, exactly as the queue test `alo < i and blo < j` (resp.
`i+k < ahi and j+k < bhi`) does.  Each split strictly shrinks
`(ahi-alo)+(bhi-blo)`, so `fuel = len(a)+len(b)+1` always suffices.
difflib then sorts the collected blocks, merges adjacent ones, and appends a
`(la, lb, 0)` terminator; none of those steps changes the total matched size,
which is all `ratio()` reads. -/
def mblocks (a b : List Char) : Nat → Nat → Nat → Nat → Nat →
    List (Nat × Nat × Nat)
  | 0, _, _, _, _ => []
  | fuel + 1, alo, ahi, blo, bhi =>
    let m := find_longest_match a b alo ahi blo bhi
    if m.2.2 = 0 then []
    else
      (if alo < m.1 ∧ blo < m.2.1 then mblocks a b fuel alo m.1 blo m.2.1 else [])
        ++ m ::
          (if m.1 + m.2.2 < ahi ∧ m.2.1 + m.2.2 < bhi then
            mblocks a b fuel (m.1 + m.2.2) ahi (m.2.1 + m.2.2) bhi
          else [])

/-- `matches = sum(triple[-1] for triple in self.get_matching_blocks())`. -/
def matchesTotal (a b : List Char) : Nat :=
  ((mblocks a b (a.length + b.length + 1) 0 a.length 0 b.length).map
    (fun m => m.2.2)).sum

/-- `SequenceMatcher.ratio()` via `_calculate_ratio(matches, len(a)+len(b))`:
`2.0 * matches / length` when the length is nonzero, `1.0` otherwise.
The quotient of integers is written with `mkRat`, which builds the exact
rational `(2 * matches) / length`; `ratioQ_eq_div` below records that it
coincides with the division form. -/
def ratioQ (a b : List Char) : ℚ :=
  if a.length + b.length = 0 then 1
  else mkRat (2 * matchesTotal a b) (a.length + b.length)

/-- `def similar(a, b): return SequenceMatcher(None, a, b).ratio()`
(lines 238-239 of the source). -/
def similar (a b : String) : ℚ := ratioQ a.data b.data

theorem ratioQ_eq_div (a b : List Char) (h : a.length + b.length ≠ 0) :
    ratioQ a b = 2 * (matchesTotal a b : ℚ) / ((a.length + b.length : Nat) : ℚ) := by
  rw [ratioQ, if_neg h, Rat.mkRat_eq_div]
  push_cast
  ring


/-! ## Lower-casing

`suggest_command` calls `similar(user_input.lower(), keyword.lower())`.
Python's `str.lower()` is modelled on the character ranges this program's
data can meet: ASCII Latin and the Cyrillic ranges U+0400-U+040F (Ѐ..Џ, which
covers Є, І, Ї), U+0410-U+042F (А..Я) and Ґ (U+0490); every other character
is left unchanged, matching the identity behaviour of `lower()` on unmapped
code points. -/

/-- Unicode simple lower-case mapping, restricted as described above. -/
def pyLowerChar (c : Char) : Char :=
  let n := c.toNat
  if 65 ≤ n ∧ n ≤ 90 then Char.ofNat (n + 32)
  else if 1024 ≤ n ∧ n ≤ 1039 then Char.ofNat (n + 80)
  else if 1040 ≤ n ∧ n ≤ 1071 then Char.ofNat (n + 32)
  else if n = 1168 then Char.ofNat 1169
  else c

/-- `s.lower()`. -/
def pyLower (s : String) : String := ⟨s.data.map pyLowerChar⟩


/-! ## The intent catalog and resolver -/

/-- The `keywords` literal of `suggest_command` (source lines 243-307),
verbatim and in source order: each canonical command with its trigger
phrases.  Python dict literals iterate in insertion order, which the list
order reproduces. -/
def keywords : List (String × List String) := [
  ("додати контакт", ["додати контакт", "створити контакт", "новий контакт",
      "ввести контакт", "записати контакт", "добавити контакт",
      "додати користувача", "добавити користувача", "ввести користувача",
      "новий користувач", "ввезти контакт", "введ контакт",
      "контакт новий", "корист новий", "користувача новий",
      "контакт користувача", "новий запис користувача"]),
  ("знайти контакт", ["знайти контакт", "пошук контакт", "шукати контакт",
      "відшукати контакт", "знайти користувача", "пошук користувача",
      "шукати користувача", "відшукати користувача", "пошукати контакт",
      "пошукати користувача", "пошук контактів", "відшукати контакти",
      "пошук користувачів", "відшукати користувачів"]),
  ("видалити контакт", ["видалити контакт", "знищити контакт", "стерти контакт",
      "вилучити контакт", "видалити користувача", "знищити користувача",
      "стерти користувача", "вилучити користувача", "видалити запис",
      "стерти запис", "видалення контакту", "стерти контакти",
      "видалення записів", "стерти записи", "вилучити контакти",
      "знищити записи"]),
  ("редагувати контакт", ["редагувати контакт", "змінити контакт", "редагування контакту",
      "редактировать контакт", "змінити запис", "змінити ім\x27я",
      "змінити номер", "змінити email", "змінити адресу",
      "редагувати номер", "редагувати ім\x27я", "редагувати email",
      "редагувати адресу", "редактирование контакта"]),
  ("редагувати нотатку", ["редагувати нотатку", "змінити нотатку", "редагування нотатки",
      "редактировать нотатку", "змінити текст", "змінити теги",
      "редагувати текст", "редагувати теги", "редагування тексту",
      "редагування тегів", "змінити запис нотатки"]),
  ("дні народження", ["дні народження", "показати дні народження",
      "знайти дні народження", "пошук днів народження",
      "найближчі дні народження", "наступні дні народження",
      "вивести дні народження", "народження контакту",
      "найближчі дати народження", "найближчі свята",
      "дні народження контакту", "найближчі події",
      "найближчі свята контакту", "наступні свята",
      "вивести дні народження контакту"]),
  ("додати нотатку", ["додати нотатку", "створити нотатку", "нова нотатка",
      "ввести нотатку", "записати нотатку", "добавити нотатку",
      "новий запис", "ввести запис", "записати запис", "новий текст",
      "створити запис нотатки", "добавити новий запис",
      "новий текст нотатки"]),
  ("знайти нотатку", ["знайти нотатку", "пошук нотатки", "шукати нотатку",
      "відшукати нотатку", "знайти запис", "пошук запису",
      "шукати запис", "відшукати запис", "пошукати нотатку",
      "пошукати запис", "знайти текст нотатки", "відшукати текст",
      "пошук тексту", "пошук записів", "знайти записи нотаток"]),
  ("видалити нотатку", ["видалити нотатку", "знищити нотатку", "стерти нотатку",
      "вилучити нотатку", "видалити запис", "знищити запис",
      "стерти запис", "вилучити запис", "стерти текст",
      "видалити текст", "видалити текст нотатки", "стерти текст нотатки",
      "вилучити запис нотатки"]),
  ("вийти", ["вийти", "закрити", "завершити", "припинити", "вихід",
      "закрити програму", "виходити", "exit", "close", "завершення",
      "вихід з програми", "припинити роботу", "завершити роботу",
      "вийти з програми", "закрити все"]),
  ("відміна", ["відміна", "отмена", "cancel", "відмінити", "зупинити",
      "скасувати", "скасування", "зупинка", "перервати",
      "скасувати операцію", "відмінити операцію", "скасування дії",
      "відміна дії", "скасувати введення", "відмінити введення",
      "зупинити введення", "перервати введення"]),
  ("показати всі контакти", ["показати всі контакти", "всі контакти",
      "переглянути всі контакти", "переглянути контакти",
      "відобразити всі контакти", "показати список контактів",
      "вивести всі контакти", "вивести список контактів",
      "показати контакти", "список контактів"])]

/-- The fixed `0.3` confidence threshold of `suggest_command`, as the exact
rational 3/10. -/
def threshold : ℚ := mkRat 3 10

/-- `suggest_command(user_input)` (source lines 242-319): scan every
`(command, keyword)` pair in catalog order, score
`similar(user_input.lower(), keyword.lower())`, and remember the command
whenever the score strictly exceeds the best so far and meets the 0.3
threshold; start from `best_match = None`, `highest_similarity = 0.0`. -/
@[irreducible] def suggest_command (user_input : String) : Option String :=
  (keywords.foldl
    (fun acc pr =>
      pr.2.foldl
        (fun acc2 kw =>
          let similarity := similar (pyLower user_input) (pyLower kw)
          if acc2.2 < similarity ∧ threshold ≤ similarity then
            (some pr.1, similarity)
          else acc2)
        acc)
    (none, (0 : ℚ))).1

/-! ### The resolver as a single fold over (command, phrase) pairs

`suggest_command` iterates the catalog dict and, inside, each phrase list;
flattening the two nested loops into one left fold over all
`(command, keyword)` pairs in enumeration order is the form the proofs use. -/

/-- All `(command, keyword)` pairs contributed by one catalog entry. -/
def pairsOf (pr : String × List String) : List (String × String) :=
  pr.2.map (fun kw => (pr.1, kw))

/-- Every `(command, keyword)` pair of the catalog, in enumeration order. -/
def pairsList : List (String × String) := keywords.flatMap pairsOf

/-- The loop body of `suggest_command` for one `(command, keyword)` pair. -/
def resolveStep (text : String) (acc : Option String × ℚ) (q : String × String) :
    Option String × ℚ :=
  let similarity := similar (pyLower text) (pyLower q.2)
  if acc.2 < similarity ∧ threshold ≤ similarity then (some q.1, similarity)
  else acc

theorem inner_foldl_eq (text cmd : String) (phrases : List String)
    (acc : Option String × ℚ) :
    phrases.foldl
      (fun acc2 kw =>
        let similarity := similar (pyLower text) (pyLower kw)
        if acc2.2 < similarity ∧ threshold ≤ similarity then (some cmd, similarity)
        else acc2)
      acc
      = (pairsOf (cmd, phrases)).foldl (resolveStep text) acc := by
  rw [pairsOf, List.foldl_map]
  rfl

theorem foldl_over_bind (text : String) :
    ∀ (L : List (String × List String)) (acc : Option String × ℚ),
      L.foldl
        (fun acc pr =>
          pr.2.foldl
            (fun acc2 kw =>
              let similarity := similar (pyLower text) (pyLower kw)
              if acc2.2 < similarity ∧ threshold ≤ similarity then
                (some pr.1, similarity)
              else acc2)
            acc)
        acc
        = (L.flatMap pairsOf).foldl (resolveStep text) acc
  | [], acc => rfl
  | pr :: L, acc => by
    rw [List.foldl_cons, List.flatMap_cons, List.foldl_append,
      ← foldl_over_bind text L, inner_foldl_eq]

/-- `suggest_command` equals the flat left fold over all catalog pairs. -/
theorem suggest_command_eq_fold (text : String) :
    suggest_command text = (pairsList.foldl (resolveStep text) (none, 0)).1 := by
  rw [suggest_command, pairsList, foldl_over_bind]

/-- Splitting a left fold at a prefix of the list, with the prefix's result
supplied as an already-evaluated accumulator. -/
theorem foldl_chunk {α β : Type} (f : α → β → α) (k : Nat) (l : List β)
    (a b : α) (h : (l.take k).foldl f a = b) :
    l.foldl f a = (l.drop k).foldl f b := by
  conv_lhs => rw [← List.take_append_drop k l]
  rw [List.foldl_append, h]

/-! ### Concrete resolver evaluations

Evaluated in chunks of the pair list so that each `decide` stays small. -/

theorem sc_exit : suggest_command "exit" = some "вийти" := by
  rw [suggest_command_eq_fold]
  rw [foldl_chunk (resolveStep "exit") 60 pairsList (none, 0) (none, 0) (by decide)]
  rw [foldl_chunk (resolveStep "exit") 60 (pairsList.drop 60) (none, 0)
    (none, 0) (by decide)]
  decide

theorem sc_cancel : suggest_command "cancel" = some "відміна" := by
  rw [suggest_command_eq_fold]
  rw [foldl_chunk (resolveStep "cancel") 60 pairsList (none, 0) (none, 0) (by decide)]
  rw [foldl_chunk (resolveStep "cancel") 60 (pairsList.drop 60) (none, 0)
    (none, 0) (by decide)]
  decide

theorem sc_12345 : suggest_command "12345" = none := by
  rw [suggest_command_eq_fold]
  rw [foldl_chunk (resolveStep "12345") 60 pairsList (none, 0) (none, 0) (by decide)]
  rw [foldl_chunk (resolveStep "12345") 60 (pairsList.drop 60) (none, 0)
    (none, 0) (by decide)]
  decide

theorem sc_phone10 : suggest_command "1234567890" = none := by
  rw [suggest_command_eq_fold]
  rw [foldl_chunk (resolveStep "1234567890") 60 pairsList (none, 0) (none, 0)
    (by decide)]
  rw [foldl_chunk (resolveStep "1234567890") 60 (pairsList.drop 60) (none, 0)
    (none, 0) (by decide)]
  decide

theorem sc_Bob : suggest_command "Bob" = none := by
  rw [suggest_command_eq_fold]
  rw [foldl_chunk (resolveStep "Bob") 60 pairsList (none, 0) (none, 0) (by decide)]
  rw [foldl_chunk (resolveStep "Bob") 60 (pairsList.drop 60) (none, 0)
    (none, 0) (by decide)]
  decide

/-! ## Field validators

Each Python field class (`Name`, `Phone`, `Address`, `Email`, `Birthday`,
source lines 42-78) raises `ValueError(msg)` on bad input.  A validator is
modelled as `String → Option String`: `some msg` for the raised message,
`none` for acceptance. -/

/-- `Name`: `len(value) < 2` raises. -/
def nameCheck (v : String) : Option String :=
  if v.length < 2 then some "Ім\x27я повинно містити мінімум 2 літери."
  else none

/-- `Phone`: `re.match(r"^\d{10}$", value)` must succeed, i.e. the value is
exactly ten decimal digits. -/
def phoneCheck (v : String) : Option String :=
  if v.length = 10 ∧ v.data.all (fun c => c.isDigit) then none
  else some "Номер телефону має містити рівно 10 цифр."

/-- `Address`: `len(value) < 5` raises. -/
def addressCheck (v : String) : Option String :=
  if v.length < 5 then some "Адреса повинна містити мінімум 5 символів."
  else none

/-- `re.match(r"[^@]+@[^@]+\.[^@]+", value)` succeeds iff some split of a
value prefix has the shape `A ++ "@" ++ B ++ "." ++ c ++ _` with `A`, `B`
nonempty and `@`-free and `c` a non-`@` character. -/
def emailMatches (v : String) : Bool :=
  let l := v.data
  (List.range l.length).any fun i =>
    (List.range l.length).any fun j =>
      1 ≤ i ∧ l.getD i ' ' = '@' ∧ (l.take i).all (fun c => c ≠ '@') ∧
        i + 1 < j ∧ ((l.drop (i + 1)).take (j - i - 1)).all (fun c => c ≠ '@') ∧
        l.getD j ' ' = '.' ∧ j + 1 < l.length ∧ l.getD (j + 1) ' ' ≠ '@'

/-- `Email`: the regex above must match. -/
def emailCheck (v : String) : Option String :=
  if emailMatches v then none
  else some "Некоректний формат email. Правильний формат: example@domain.com."

/-- Gregorian leap-year rule used by `datetime.date`. -/
def isLeap (y : Nat) : Bool := decide ((y % 4 = 0 ∧ y % 100 ≠ 0) ∨ y % 400 = 0)

/-- Length of month `m` in year `y` as `datetime.date` validates it. -/
def daysInMonth (y m : Nat) : Nat :=
  if m = 2 then (if isLeap y then 29 else 28)
  else if m = 4 ∨ m = 6 ∨ m = 9 ∨ m = 11 then 30
  else 31

/-- Digits-only test (`\d` of the strptime patterns, on ASCII data). -/
def allDigits (s : List Char) : Bool := s.all (fun c => c.isDigit)

/-- Decimal value of a digit string. -/
def natOf (s : List Char) : Nat := s.foldl (fun n c => 10 * n + (c.toNat - 48)) 0

/-- Split a character list at every `'-'` (the separators of the
`'%d-%m-%Y'` format). -/
def splitDash : List Char → List (List Char)
  | [] => [[]]
  | c :: rest =>
    let r := splitDash rest
    if c = '-' then [] :: r else (c :: r.headD []) :: r.tail

/-- `Birthday`: `datetime.strptime(value, '%d-%m-%Y')` must parse: a 1-2
digit day, a 1-2 digit month, a 4-digit year separated by `-` with nothing
left over, and the triple must be a real calendar date with year ≥ 1. -/
def birthdayCheck (v : String) : Option String :=
  match splitDash v.data with
  | [d, m, y] =>
    if 1 ≤ d.length ∧ d.length ≤ 2 ∧ allDigits d ∧
        1 ≤ m.length ∧ m.length ≤ 2 ∧ allDigits m ∧
        y.length = 4 ∧ allDigits y ∧

        1 ≤ natOf d ∧ 1 ≤ natOf m ∧ natOf m ≤ 12 ∧ 1 ≤ natOf y ∧
        natOf d ≤ daysInMonth (natOf y) (natOf m) then none
    else some "День народження повинен бути в форматі дд-мм-рррр."
  | _ => some "День народження повинен бути в форматі дд-мм-рррр."


/-! ## The guarded input loop

`handle_user_input(validation_class)` (source lines 8-31) wraps a prompt:
read a line, resolve it, return `'exit'` on the exit intent, `None` on the
cancel intent, otherwise validate and either re-prompt (printing the error)
or return the line.  Console input is modelled as a list of pending lines;
console output as a list of events. -/

/-- How one wrapped prompt call ends.  `noInput` marks input exhaustion
(Python would raise `EOFError` out of `input()`). -/
inductive GOutcome where
  | accepted (v : String)
  | exited
  | cancelled
  | noInput
deriving DecidableEq

/-- Console output events of the wrapper: the prompt display of
`input(prompt)`, the validation-error line `"Помилка вводу: ..."` (carrying
the validator's reason), and the exit/cancel notices. -/
inductive Ev where
  | shown (p : String)
  | rejected (msg : String)
  | exitNote
  | cancelNote
deriving DecidableEq

/-- The wrapper loop: returns the outcome, the emitted events, and the
input lines left unconsumed. -/
def runGuarded (check : String → Option String) (p : String) :
    List String → GOutcome × List Ev × List String
  | [] => (.noInput, [], [])
  | line :: rest =>
    let command := suggest_command line
    if command = some "вийти" then (.exited, [.shown p, .exitNote], rest)
    else if command = some "відміна" then (.cancelled, [.shown p, .cancelNote], rest)
    else
      match check line with
      | some e =>
        let r := runGuarded check p rest
        (r.1, .shown p :: .rejected e :: r.2.1, r.2.2)
      | none => (.accepted line, [.shown p], rest)

/-- The Python value the wrapper returns: `'exit'`, `None`, or the accepted
line; `none` here marks the `noInput` crash, which returns nothing. -/
def pyRet : GOutcome → Option (Option String)
  | .accepted v => some (some v)
  | .exited => some (some "exit")
  | .cancelled => some none
  | .noInput => none

/-! ## The add-contact flow of `main` (source lines 361-383)

`main` sequences `get_name`, `get_phone`, `get_address`, `get_email`,
`get_birthday`; after each it runs `if value in ['exit', None]: continue`
(abandoning the command and leaving the book untouched), and only after all
five builds a `Record` and calls `book.add_record(record)`. -/

/-- A `Record` as the add-contact flow builds it: name, one phone, address,
email, birthday.  `Birthday.__init__` stores the parsed date; the raw
accepted text is kept here, an equivalent representation for store-identity
statements. -/
structure RecordV where
  name : String
  phones : List String
  address : Option String
  email : Option String
  birthday : Option String
deriving DecidableEq

/-- The address book contents: `AddressBook.data`, a dict keyed by the
record's name.  Python dict assignment replaces in place when the key exists
and appends otherwise. -/
def addRecord (book : List (String × RecordV)) (r : RecordV) :
    List (String × RecordV) :=
  if book.any (fun q => q.1 = r.name) then
    book.map (fun q => if q.1 = r.name then (q.1, r) else q)
  else book ++ [(r.name, r)]

/-- The five prompts of the add-contact flow, in order. -/
def namePrompt : String := "Введіть ім\x27я: "

def phonePrompt : String := "Введіть номер телефону: "

def addressPrompt : String := "Введіть адресу: "

def emailPrompt : String := "Введіть email: "

def birthdayPrompt : String := "Введіть день народження (дд-мм-рррр): "

/-- The `'додати контакт'` branch of `main`: runs the five guarded prompts
in order over the pending input lines and returns the resulting book.
A `noInput` collapse (Python: `EOFError` aborting `main`) leaves the book
as it was.  The final record is assembled from the accepted values; the
`getD ""` defaults are unreachable because the guard has excluded `None`. -/
def addContactFlow (inputs : List String) (book : List (String × RecordV)) :
    List (String × RecordV) :=
  let g1 := runGuarded nameCheck namePrompt inputs
  match pyRet g1.1 with
  | none => book
  | some name =>
    if name = some "exit" ∨ name = none then book
    else
      let g2 := runGuarded phoneCheck phonePrompt g1.2.2
      match pyRet g2.1 with
      | none => book
      | some phone =>
        if phone = some "exit" ∨ phone = none then book
        else
          let g3 := runGuarded addressCheck addressPrompt g2.2.2
          match pyRet g3.1 with
          | none => book
          | some address =>
            if address = some "exit" ∨ address = none then book
            else
              let g4 := runGuarded emailCheck emailPrompt g3.2.2
              match pyRet g4.1 with
              | none => book
              | some email =>
                if email = some "exit" ∨ email = none then book
                else
                  let g5 := runGuarded birthdayCheck birthdayPrompt g4.2.2
                  match pyRet g5.1 with
                  | none => book
                  | some birthday =>
                    if birthday = some "exit" ∨ birthday = none then book
                    else
                      addRecord book
                        { name := name.getD "", phones := [phone.getD ""],
                          address := some (address.getD ""),
                          email := some (email.getD ""),
                          birthday := some (birthday.getD "") }

/-- The outcomes of the guarded-prompt calls the add-contact flow actually
makes, in order: the flow stops calling after the first call that does not
accept. -/
def contactOutcomes (inputs : List String) : List GOutcome :=
  let g1 := runGuarded nameCheck namePrompt inputs
  match g1.1 with
  | .accepted v1 =>
    if v1 = "exit" then [g1.1]
    else
      g1.1 ::
        (let g2 := runGuarded phoneCheck phonePrompt g1.2.2
        match g2.1 with
        | .accepted v2 =>
          if v2 = "exit" then [g2.1]
          else
            g2.1 ::
              (let g3 := runGuarded addressCheck addressPrompt g2.2.2
              match g3.1 with
              | .accepted v3 =>
                if v3 = "exit" then [g3.1]
                else
                  g3.1 ::
                    (let g4 := runGuarded emailCheck emailPrompt g3.2.2
                    match g4.1 with
                    | .accepted v4 =>
                      if v4 = "exit" then [g4.1]
                      else
                        g4.1 ::
                          (let g5 := runGuarded birthdayCheck birthdayPrompt g4.2.2
                          [g5.1])
                    | o => [o])
              | o => [o])
        | o => [o])
  | o => [o]

/-! ## Claim C1: control intents intercept the guarded loop -/

/-- C1: whenever an input line resolves to the control intent `вийти`
(exit) — resp. `відміна` (cancel) — the guarded input loop returns
immediately with the exited (resp. cancelled) outcome: the same result for
every validator (so no validator is consulted), no accepted value, no
rejection event, and the remaining input untouched.  The interception
happens at the resolver's verdict alone, so it applies even when the raw
text would also satisfy the validator or score above threshold against
domain phrases. -/
theorem control_intents_intercept (check : String → Option String)
    (p line : String) (rest : List String) :
    (suggest_command line = some "вийти" →
      runGuarded check p (line :: rest) = (.exited, [.shown p, .exitNote], rest)) ∧
    (suggest_command line = some "відміна" →
      runGuarded check p (line :: rest) =
        (.cancelled, [.shown p, .cancelNote], rest)) := by
  constructor
  · intro h
    simp [runGuarded, h]
  · intro h
    simp [runGuarded, h]

/-- C1 witness: the literal lines `exit` and `cancel` are intercepted even
under a validator that accepts every string. -/
theorem control_intents_intercept_witness :
    runGuarded (fun _ => none) namePrompt ["exit"] =
        (.exited, [.shown namePrompt, .exitNote], []) ∧
      runGuarded (fun _ => none) namePrompt ["cancel"] =
        (.cancelled, [.shown namePrompt, .cancelNote], []) :=
  ⟨(control_intents_intercept (fun _ => none) namePrompt "exit" []).1 sc_exit,
    (control_intents_intercept (fun _ => none) namePrompt "cancel" []).2 sc_cancel⟩

/-! ## Claim C2: below the 0.3 threshold the resolver reports nothing -/

theorem foldl_resolve_all_below (t : String) :
    ∀ (l : List (String × String)) (acc : Option String × ℚ),
      (∀ q ∈ l, similar (pyLower t) (pyLower q.2) < threshold) →
      l.foldl (resolveStep t) acc = acc
  | [], _, _ => rfl
  | q :: l, acc, h => by
    rw [List.foldl_cons]
    have hq := h q (List.mem_cons_self q l)
    have hstep : resolveStep t acc q = acc := by
      rw [resolveStep]
      rw [if_neg]
      intro hc
      exact absurd hc.2 (not_le.mpr hq)
    rw [hstep]
    exact foldl_resolve_all_below t l acc (fun q' hq' => h q' (List.mem_cons_of_mem _ hq'))

/-- C2: if every trigger phrase of every catalog intent scores strictly
below the 0.3 threshold against the input text, `suggest_command` returns
`None`, even though some phrase is the best of the candidates. -/
theorem below_threshold_yields_none (text : String)
    (h : ∀ pr ∈ keywords, ∀ kw ∈ pr.2,
      similar (pyLower text) (pyLower kw) < threshold) :
    suggest_command text = none := by
  rw [suggest_command_eq_fold]
  rw [foldl_resolve_all_below text pairsList (none, 0)]
  intro q hq
  rw [pairsList] at hq
  rcases List.mem_flatMap.mp hq with ⟨pr, hpr, hq2⟩
  rcases List.mem_map.mp hq2 with ⟨kw, hkw, rfl⟩
  exact h pr hpr kw hkw

/-- C2 witness: `xyz123` scores below 0.3 against every catalog phrase and
resolves to `None`. -/
theorem below_threshold_yields_none_witness :
    (∀ pr ∈ keywords, ∀ kw ∈ pr.2,
      similar (pyLower "xyz123") (pyLower kw) < threshold) ∧
      suggest_command "xyz123" = none := by
  have h : ∀ pr ∈ keywords, ∀ kw ∈ pr.2,
      similar (pyLower "xyz123") (pyLower kw) < threshold := by decide
  exact ⟨h, below_threshold_yields_none "xyz123" h⟩

/-! ## Claim C4: validator rejection re-prompts indefinitely -/

/-- C4: when the resolved intent is not a control intent and the validator
rejects the line with reason `e`, the loop emits the prompt and the
rejection reason and then continues as a fresh run on the remaining input
with the same original prompt — so rejections loop without any retry limit.
In particular, with the ten-digit phone validator and the input sequence
`12345`, `1234567890`, the loop emits exactly one rejection event and then
accepts `1234567890`. -/
theorem rejection_reprompts (check : String → Option String) (p line e : String)
    (rest : List String) :
    (suggest_command line ≠ some "вийти" → suggest_command line ≠ some "відміна" →
      check line = some e →
      runGuarded check p (line :: rest) =
        ((runGuarded check p rest).1,
          .shown p :: .rejected e :: (runGuarded check p rest).2.1,
          (runGuarded check p rest).2.2)) ∧
    runGuarded phoneCheck p ["12345", "1234567890"] =
      (.accepted "1234567890",
        [.shown p, .rejected "Номер телефону має містити рівно 10 цифр.", .shown p],
        []) := by
  constructor
  · intro h1 h2 h3
    simp [runGuarded, h1, h2, h3]
  · have e1 : phoneCheck "12345" = some "Номер телефону має містити рівно 10 цифр." := by
      decide
    have e2 : phoneCheck "1234567890" = none := by decide
    simp [runGuarded, sc_12345, sc_phone10, e1, e2]

/-- C4 witness: the general rejection step applied to the phone validator at
line `12345`. -/
theorem rejection_reprompts_witness :
    runGuarded phoneCheck phonePrompt ["12345", "1234567890"] =
      ((runGuarded phoneCheck phonePrompt ["1234567890"]).1,
        .shown phonePrompt ::
          .rejected "Номер телефону має містити рівно 10 цифр." ::
            (runGuarded phoneCheck phonePrompt ["1234567890"]).2.1,
        (runGuarded phoneCheck phonePrompt ["1234567890"]).2.2) :=
  (rejection_reprompts phoneCheck phonePrompt "12345"
      "Номер телефону має містити рівно 10 цифр." ["1234567890"]).1
    (by simp [sc_12345]) (by simp [sc_12345]) (by decide)

/-! ## Claim C9: the resolver only returns catalog keys -/

theorem resolveStep_fst (t : String) (acc : Option String × ℚ)
    (q : String × String) :
    (resolveStep t acc q).1 = acc.1 ∨ (resolveStep t acc q).1 = some q.1 := by
  rw [resolveStep]
  split
  · exact Or.inr rfl
  · exact Or.inl rfl

theorem foldl_resolve_fst (t : String) :
    ∀ (l : List (String × String)) (acc : Option String × ℚ),
      (l.foldl (resolveStep t) acc).1 = acc.1 ∨
        ∃ q ∈ l, (l.foldl (resolveStep t) acc).1 = some q.1
  | [], _ => Or.inl rfl
  | q :: l, acc => by
    rw [List.foldl_cons]
    rcases foldl_resolve_fst t l (resolveStep t acc q) with h | ⟨q', hq', h⟩
    · rcases resolveStep_fst t acc q with h2 | h2
      · exact Or.inl (h.trans h2)
      · exact Or.inr ⟨q, List.mem_cons_self q l, h.trans h2⟩
    · exact Or.inr ⟨q', List.mem_cons_of_mem _ hq', h⟩

/-- C9: for every input text the resolver returns either `None` or the
canonical command key of some catalog entry — one of the twelve keys of
`keywords` — never a trigger phrase or any other string. -/
theorem resolver_returns_catalog_key (text : String) :
    suggest_command text = none ∨
      ∃ pr ∈ keywords, suggest_command text = some pr.1 := by
  rw [suggest_command_eq_fold]
  rcases foldl_resolve_fst text pairsList (none, 0) with h | ⟨q, hq, h⟩
  · exact Or.inl h
  · rw [pairsList] at hq
    rcases List.mem_flatMap.mp hq with ⟨pr, hpr, hq2⟩
    rcases List.mem_map.mp hq2 with ⟨kw, hkw, rfl⟩
    exact Or.inr ⟨pr, hpr, h⟩

/-! ## Claim C10: an accepted value never resolves to a control intent -/

/-- C10: whenever the guarded loop accepts a value `v`, the resolver maps
`v` neither to the exit intent `вийти` nor to the cancel intent `відміна`
(the accepting branch is only reachable past those two checks); and since
the literal line `exit` is a trigger phrase of `вийти` and resolves to it,
an accepted value is never the string `exit` — the `'exit'` sentinel the
wrapper returns cannot be confused with accepted data. -/
theorem accepted_value_not_control (check : String → Option String)
    (p v : String) :
    ∀ inputs : List String, (runGuarded check p inputs).1 = .accepted v →
      suggest_command v ≠ some "вийти" ∧ suggest_command v ≠ some "відміна" ∧
        v ≠ "exit"
  | [], h => by simp [runGuarded] at h
  | line :: rest, h => by
    by_cases h1 : suggest_command line = some "вийти"
    · simp [runGuarded, h1] at h
    · by_cases h2 : suggest_command line = some "відміна"
      · simp [runGuarded, h1, h2] at h
      · rcases hc : check line with _ | e
        · have hv : v = line := by
            simp [runGuarded, h1, h2, hc] at h
            exact h.symm
          subst hv
          refine ⟨h1, h2, ?_⟩
          intro hveq
          rw [hveq, sc_exit] at h1
          exact h1 rfl
        · have h' : (runGuarded check p rest).1 = .accepted v := by
            simp [runGuarded, h1, h2, hc] at h
            exact h
          exact accepted_value_not_control check p v rest h'

/-- C10 witness: the run accepting `Bob` satisfies all three conclusions. -/
theorem accepted_value_not_control_witness :
    suggest_command "Bob" ≠ some "вийти" ∧
      suggest_command "Bob" ≠ some "відміна" ∧ "Bob" ≠ "exit" :=
  accepted_value_not_control nameCheck namePrompt "Bob" ["Bob"]
    (by simp [runGuarded, sc_Bob]; decide)

/-! ## Claim C7: the scorer as used is case-insensitive -/

/-- The scorer as the resolver applies it (source line 314): both arguments
are lower-cased before `similar` — the spec's `score`. -/
def score (a b : String) : ℚ := similar (pyLower a) (pyLower b)

theorem toNat_ofNat_lt {n : Nat} (h : n < 55296) : (Char.ofNat n).toNat = n := by
  rw [Char.ofNat, dif_pos (Or.inl h)]
  rfl

theorem pyLowerChar_idem (c : Char) : pyLowerChar (pyLowerChar c) = pyLowerChar c := by
  by_cases h1 : 65 ≤ c.toNat ∧ c.toNat ≤ 90
  · have e : pyLowerChar c = Char.ofNat (c.toNat + 32) := by
      simp only [pyLowerChar]
      rw [if_pos h1]
    have ht : (Char.ofNat (c.toNat + 32)).toNat = c.toNat + 32 :=
      toNat_ofNat_lt (by omega)
    rw [e]
    simp only [pyLowerChar, ht]
    rw [if_neg (by omega), if_neg (by omega), if_neg (by omega), if_neg (by omega)]
  · by_cases h2 : 1024 ≤ c.toNat ∧ c.toNat ≤ 1039
    · have e : pyLowerChar c = Char.ofNat (c.toNat + 80) := by
        simp only [pyLowerChar]
        rw [if_neg h1, if_pos h2]
      have ht : (Char.ofNat (c.toNat + 80)).toNat = c.toNat + 80 :=
        toNat_ofNat_lt (by omega)
      rw [e]
      simp only [pyLowerChar, ht]
      rw [if_neg (by omega), if_neg (by omega), if_neg (by omega), if_neg (by omega)]
    · by_cases h3 : 1040 ≤ c.toNat ∧ c.toNat ≤ 1071
      · have e : pyLowerChar c = Char.ofNat (c.toNat + 32) := by
          simp only [pyLowerChar]
          rw [if_neg h1, if_neg h2, if_pos h3]
        have ht : (Char.ofNat (c.toNat + 32)).toNat = c.toNat + 32 :=
          toNat_ofNat_lt (by omega)
        rw [e]
        simp only [pyLowerChar, ht]
        rw [if_neg (by omega), if_neg (by omega), if_neg (by omega),
          if_neg (by omega)]
      · by_cases h4 : c.toNat = 1168
        · have e : pyLowerChar c = Char.ofNat 1169 := by
            simp only [pyLowerChar]
            rw [if_neg h1, if_neg h2, if_neg h3, if_pos h4]
          have ht : (Char.ofNat 1169).toNat = 1169 := toNat_ofNat_lt (by omega)
          rw [e]
          simp only [pyLowerChar, ht]
          rw [if_neg (by omega), if_neg (by omega), if_neg (by omega),
            if_neg (by omega)]
        · have e : pyLowerChar c = c := by
            simp only [pyLowerChar]
            rw [if_neg h1, if_neg h2, if_neg h3, if_neg h4]
          rw [e, e]

theorem pyLower_idem (s : String) : pyLower (pyLower s) = pyLower s := by
  have hf : pyLowerChar ∘ pyLowerChar = pyLowerChar := funext pyLowerChar_idem
  show (⟨(s.data.map pyLowerChar).map pyLowerChar⟩ : String) = ⟨s.data.map pyLowerChar⟩
  rw [List.map_map, hf]

/-- C7: the scorer lower-cases both inputs before scoring, so scoring any
two strings gives exactly the score of their lower-cased forms; in
particular `score "Hello" "hello" = score "hello" "hello"`. -/
theorem score_case_insensitive :
    (∀ a b : String, score a b = score (pyLower a) (pyLower b)) ∧
      score "Hello" "hello" = score "hello" "hello" := by
  constructor
  · intro a b
    rw [score, score, pyLower_idem, pyLower_idem]
  · decide

/-! ## Claim C6: the scorer is not symmetric -/

/-- C6 counterexample: `SequenceMatcher` ratios depend on the argument
order; `similar "tide" "diet"` is 1/4 while `similar "diet" "tide"` is 1/2
(the worked example of the difflib documentation's caveat). -/
theorem similar_asymmetric_cex : similar "tide" "diet" ≠ similar "diet" "tide" := by
  decide

theorem matchesTotal_nil_left (l : List Char) : matchesTotal [] l = 0 := rfl

theorem foldl_innerJ_nil (l : List Char) :
    ∀ is : List Nat,
      is.foldl
        (fun acc i =>
          innerJ 0 0 i (b2j [] (l.getD i ' ')) acc.1 (fun _ => 0) acc.2)
        ((fun _ => 0 : Nat → Nat), (0, 0, 0))
        = ((fun _ => 0 : Nat → Nat), (0, 0, 0))
  | [] => rfl
  | i :: is => by
    rw [List.foldl_cons]
    exact foldl_innerJ_nil l is

theorem flm_nil_right (l : List Char) :
    find_longest_match l [] 0 l.length 0 0 = (0, 0, 0) := by
  have h1 : flmLoop l [] 0 l.length 0 0 = ((fun _ => 0 : Nat → Nat), (0, 0, 0)) := by
    rw [flmLoop]
    exact foldl_innerJ_nil l _
  have h2 : ∀ fuel, extRight l [] l.length 0 (fun c => !bjunk c) 0 0 fuel 0 = 0 := by
    intro fuel
    cases fuel with
    | zero => rfl
    | succ f =>
      rw [extRight, if_neg]
      intro hc
      exact absurd hc.2.1 (by omega)
  have h3 : ∀ fuel, extRight l [] l.length 0 bjunk 0 0 fuel 0 = 0 := by
    intro fuel
    cases fuel with
    | zero => rfl
    | succ f =>
      rw [extRight, if_neg]
      intro hc
      exact absurd hc.2.1 (by omega)
  simp only [find_longest_match, h1]
  simp only [extLeft, h2, h3]

theorem matchesTotal_nil_right (l : List Char) : matchesTotal l [] = 0 := by
  rw [matchesTotal]
  have h : mblocks l [] (l.length + ([] : List Char).length + 1) 0 l.length 0
      ([] : List Char).length = [] := by
    rw [mblocks]
    simp only [List.length_nil, flm_nil_right l]
    simp
  rw [h]
  rfl

theorem similar_empty_comm (b : String) : similar "" b = similar b "" := by
  show ratioQ [] b.data = ratioQ b.data []
  rw [ratioQ, ratioQ, matchesTotal_nil_left, matchesTotal_nil_right]
  simp [Rat.mkRat_eq_div]

/-- C6 amended: the scorer is not symmetric in general (see the
counterexample `tide`/`diet`); symmetry does hold whenever the two strings
are equal or either of them is empty. -/
theorem similar_symm_restricted (a b : String)
    (h : a = b ∨ a = "" ∨ b = "") : similar a b = similar b a := by
  rcases h with rfl | rfl | rfl
  · rfl
  · exact similar_empty_comm b
  · exact (similar_empty_comm a).symm

/-- C6 amended witness: an empty-string pair where both orders score 0. -/
theorem similar_symm_restricted_witness :
    (("" : String) = "q" ∨ ("" : String) = "" ∨ ("q" : String) = "") ∧
      similar "" "q" = similar "q" "" :=
  ⟨Or.inr (Or.inl rfl), similar_symm_restricted "" "q" (Or.inr (Or.inl rfl))⟩

/-! ## Claim C3: the first intent to attain the maximum score wins -/

/-- The score of one catalog pair against the input, as the resolver
computes it. -/
def scoreOf (text : String) (q : String × String) : ℚ :=
  similar (pyLower text) (pyLower q.2)

/-- Binary maximum on ℚ, written out so that it evaluates. -/
def qmax (a b : ℚ) : ℚ := if a ≤ b then b else a

/-- The maximum catalog score for the input (0 for an empty score list). -/
@[irreducible] def maxScoreOf (text : String) : ℚ :=
  (pairsList.map (scoreOf text)).foldr qmax 0

theorem le_qmax_left (a b : ℚ) : a ≤ qmax a b := by
  rw [qmax]
  split
  · assumption
  · exact le_refl a

theorem le_qmax_right (a b : ℚ) : b ≤ qmax a b := by
  rw [qmax]
  split
  · exact le_refl b
  · exact le_of_not_le (by assumption)

theorem le_foldr_qmax (l : List ℚ) (z : ℚ) :
    ∀ x ∈ l, x ≤ l.foldr qmax z := by
  induction l with
  | nil => intro x hx; cases hx
  | cons a l ih =>
    intro x hx
    rw [List.foldr_cons]
    rcases List.mem_cons.mp hx with rfl | hx
    · exact le_qmax_left _ _
    · exact (ih x hx).trans (le_qmax_right _ _)

theorem foldr_qmax_mem (l : List ℚ) (z : ℚ) :
    l.foldr qmax z = z ∨ l.foldr qmax z ∈ l := by
  induction l with
  | nil => exact Or.inl rfl
  | cons a l ih =>
    rw [List.foldr_cons, qmax]
    split
    · rcases ih with h | h
      · exact Or.inl h
      · exact Or.inr (List.mem_cons_of_mem _ h)
    · exact Or.inr (List.mem_cons_self _ _)

theorem find?_split {α : Type} (p : α → Bool) :
    ∀ (l : List α) (x : α), l.find? p = some x →
      ∃ l₁ l₂, l = l₁ ++ x :: l₂ ∧ (∀ y ∈ l₁, p y = false) ∧ p x = true
  | [], x, h => by simp [List.find?] at h
  | a :: l, x, h => by
    rcases ha : p a with _ | _
    · rw [List.find?_cons_of_neg _ (by simp [ha])] at h
      rcases find?_split p l x h with ⟨l₁, l₂, rfl, h1, h2⟩
      refine ⟨a :: l₁, l₂, rfl, ?_, h2⟩
      intro y hy
      rcases List.mem_cons.mp hy with rfl | hy
      · exact ha
      · exact h1 y hy
    · rw [List.find?_cons_of_pos _ ha] at h
      cases h
      exact ⟨[], l, rfl, fun y hy => absurd hy (List.not_mem_nil y), ha⟩

theorem foldl_resolve_stable (t : String) :
    ∀ (l : List (String × String)) (acc : Option String × ℚ),
      (∀ q ∈ l, scoreOf t q ≤ acc.2) → l.foldl (resolveStep t) acc = acc
  | [], _, _ => rfl
  | q :: l, acc, h => by
    rw [List.foldl_cons]
    have hstep : resolveStep t acc q = acc := by
      rw [resolveStep, if_neg]
      intro hc
      exact absurd hc.1 (not_lt.mpr (h q (List.mem_cons_self q l)))
    rw [hstep]
    exact foldl_resolve_stable t l acc fun q' hq' => h q' (List.mem_cons_of_mem _ hq')

theorem foldl_resolve_lt (t : String) (M : ℚ) :
    ∀ (l : List (String × String)) (acc : Option String × ℚ),
      acc.2 < M → (∀ q ∈ l, scoreOf t q < M) →
      (l.foldl (resolveStep t) acc).2 < M
  | [], _, hacc, _ => hacc
  | q :: l, acc, hacc, h => by
    rw [List.foldl_cons]
    refine foldl_resolve_lt t M l (resolveStep t acc q) ?_
      (fun q' hq' => h q' (List.mem_cons_of_mem _ hq'))
    rw [resolveStep]
    split
    · exact h q (List.mem_cons_self q l)
    · exact hacc

/-- C3: whenever the maximum catalog score reaches the 0.3 threshold, the
resolver returns exactly the command of the first `(command, phrase)` pair,
in catalog enumeration order, whose score attains that maximum: later pairs
scoring equal to the running best never displace it, because the update
comparison is strict. -/
theorem resolver_first_max (text : String)
    (h : threshold ≤ maxScoreOf text) :
    ∃ q ∈ pairsList, scoreOf text q = maxScoreOf text ∧
      pairsList.find? (fun q' => decide (scoreOf text q' = maxScoreOf text)) =
        some q ∧
      suggest_command text = some q.1 := by
  have hpos : (0 : ℚ) < threshold := by decide
  have hM0 : (0 : ℚ) < maxScoreOf text := lt_of_lt_of_le hpos h
  have hmem : ∃ q ∈ pairsList, scoreOf text q = maxScoreOf text := by
    rcases foldr_qmax_mem (pairsList.map (scoreOf text)) 0 with h0 | hm
    · rw [maxScoreOf] at hM0
      rw [h0] at hM0
      exact absurd hM0 (lt_irrefl 0)
    · rcases List.mem_map.mp hm with ⟨q, hq, hsc⟩
      refine ⟨q, hq, ?_⟩
      rw [maxScoreOf]
      exact hsc
  have hub : ∀ q ∈ pairsList, scoreOf text q ≤ maxScoreOf text := by
    intro q hq
    rw [maxScoreOf]
    exact le_foldr_qmax _ 0 _ (List.mem_map_of_mem (scoreOf text) hq)
  rcases hfind : pairsList.find?
      (fun q' => decide (scoreOf text q' = maxScoreOf text)) with _ | q
  · rcases hmem with ⟨q, hq, hsc⟩
    have hthis := List.find?_eq_none.mp hfind q hq
    simp only [decide_eq_true_eq] at hthis
    exact absurd hsc hthis
  · rcases find?_split _ pairsList q hfind with ⟨l₁, l₂, hdec, hfalse, htrue⟩
    have hqM : scoreOf text q = maxScoreOf text := of_decide_eq_true htrue
    have hqM' : similar (pyLower text) (pyLower q.2) = maxScoreOf text := hqM
    have hqmem : q ∈ pairsList := by
      rw [hdec]
      exact List.mem_append.mpr (Or.inr (List.mem_cons_self _ _))
    refine ⟨q, hqmem, hqM, rfl, ?_⟩
    rw [suggest_command_eq_fold, hdec, List.foldl_append, List.foldl_cons]
    have hl₁ : ∀ y ∈ l₁, scoreOf text y < maxScoreOf text := by
      intro y hy
      have hne : scoreOf text y ≠ maxScoreOf text := by
        intro hEq
        have hfy := hfalse y hy
        rw [decide_eq_false_iff_not] at hfy
        exact hfy hEq
      have hle : scoreOf text y ≤ maxScoreOf text := by
        refine hub y ?_
        rw [hdec]
        exact List.mem_append.mpr (Or.inl hy)
      exact lt_of_le_of_ne hle hne
    have hacc1 : (l₁.foldl (resolveStep text) (none, 0)).2 < maxScoreOf text :=
      foldl_resolve_lt text (maxScoreOf text) l₁ (none, 0) hM0 hl₁
    have hlt : (l₁.foldl (resolveStep text) (none, 0)).2 <
        similar (pyLower text) (pyLower q.2) := by
      rw [hqM']
      exact hacc1
    have hth : threshold ≤ similar (pyLower text) (pyLower q.2) := by
      rw [hqM']
      exact h
    have hstep : resolveStep text (l₁.foldl (resolveStep text) (none, 0)) q =
        (some q.1, maxScoreOf text) := by
      rw [resolveStep, if_pos ⟨hlt, hth⟩, hqM']
    rw [hstep]
    have hstab : l₂.foldl (resolveStep text) (some q.1, maxScoreOf text) =
        (some q.1, maxScoreOf text) := by
      refine foldl_resolve_stable text l₂ _ ?_
      intro q' hq'
      have hmem2 : q' ∈ pairsList := by
        rw [hdec]
        exact List.mem_append.mpr
          (Or.inr (List.mem_cons_of_mem _ hq'))
      show scoreOf text q' ≤ maxScoreOf text
      exact hub q' hmem2
    rw [hstab]

/-- Splitting a right fold at a prefix, with the suffix's value already
evaluated. -/
theorem foldr_chunk {α β : Type} (f : α → β → β) (k : Nat) (l : List α)
    (z w : β) (h : (l.drop k).foldr f z = w) :
    l.foldr f z = (l.take k).foldr f w := by
  conv_lhs => rw [← List.take_append_drop k l]
  rw [List.foldr_append, h]

theorem msc_vz : maxScoreOf "видалити запис" = 1 := by
  have h1 : (((pairsList.map (scoreOf "видалити запис")).drop 60).drop 60).foldr
      qmax 0 = mkRat 6 7 := by decide
  have h2 : ((pairsList.map (scoreOf "видалити запис")).drop 60).foldr qmax 0 = 1 := by
    rw [foldr_chunk qmax 60 _ 0 (mkRat 6 7) h1]
    decide
  rw [maxScoreOf, foldr_chunk qmax 60 _ 0 1 h2]
  decide

/-- C3 witness: `видалити запис` is a phrase of both `видалити контакт`
and `видалити нотатку`; the maximum score 1 is reached, and the resolver
returns the command of the first attaining pair. -/
theorem resolver_first_max_witness :
    threshold ≤ maxScoreOf "видалити запис" ∧
      ∃ q ∈ pairsList,
        scoreOf "видалити запис" q = maxScoreOf "видалити запис" ∧
          pairsList.find?
              (fun q' =>
                decide (scoreOf "видалити запис" q' = maxScoreOf "видалити запис")) =
            some q ∧
          suggest_command "видалити запис" = some q.1 := by
  have h : threshold ≤ maxScoreOf "видалити запис" := by
    rw [msc_vz]
    decide
  exact ⟨h, resolver_first_max "видалити запис" h⟩


/-- C5: if any of the five sequenced guarded prompts of the add-contact flow
ends in Exited or Cancelled, the whole operation is abandoned and the
address book is returned unchanged: no record is built or added from the
previously accepted field values. -/
theorem no_partial_commit (inputs : List String) (book : List (String × RecordV))
    (h : ∃ o ∈ contactOutcomes inputs,
      o = GOutcome.exited ∨ o = GOutcome.cancelled) :
    addContactFlow inputs book = book := by
  rcases hg1 : runGuarded nameCheck namePrompt inputs with ⟨o1, t1, r1⟩
  simp only [addContactFlow, contactOutcomes, hg1] at h ⊢
  rcases o1 with v1 | _ | _ | _
  · simp only [pyRet] at h ⊢
    by_cases hv1 : v1 = "exit"
    · simp [hv1]
    · simp only [if_neg hv1, Option.some.injEq, hv1, or_false, if_false,
        reduceCtorEq, if_neg] at h ⊢
      rcases h with ⟨o, ho, hP⟩
      rcases List.mem_cons.mp ho with rfl | ho2
      · simp at hP
      · rcases hg2 : runGuarded phoneCheck phonePrompt r1 with ⟨o2, t2, r2⟩
        simp only [hg2] at ho2 ⊢
        rcases o2 with v2 | _ | _ | _
        · simp only [pyRet] at ho2 ⊢
          by_cases hv2 : v2 = "exit"
          · simp [hv2]
          · simp only [if_neg hv2, Option.some.injEq, hv2, or_false, if_false,
              reduceCtorEq, if_neg] at ho2 ⊢
            rcases List.mem_cons.mp ho2 with rfl | ho3
            · simp at hP
            · rcases hg3 : runGuarded addressCheck addressPrompt r2 with ⟨o3, t3, r3⟩
              simp only [hg3] at ho3 ⊢
              rcases o3 with v3 | _ | _ | _
              · simp only [pyRet] at ho3 ⊢
                by_cases hv3 : v3 = "exit"
                · simp [hv3]
                · simp only [if_neg hv3, Option.some.injEq, hv3, or_false, if_false,
                    reduceCtorEq, if_neg] at ho3 ⊢
                  rcases List.mem_cons.mp ho3 with rfl | ho4
                  · simp at hP
                  · rcases hg4 : runGuarded emailCheck emailPrompt r3 with ⟨o4, t4, r4⟩
                    simp only [hg4] at ho4 ⊢
                    rcases o4 with v4 | _ | _ | _
                    · simp only [pyRet] at ho4 ⊢
                      by_cases hv4 : v4 = "exit"
                      · simp [hv4]
                      · simp only [if_neg hv4, Option.some.injEq, hv4, or_false, if_false,
                          reduceCtorEq, if_neg] at ho4 ⊢
                        rcases List.mem_cons.mp ho4 with rfl | ho5
                        · simp at hP
                        · rcases hg5 : runGuarded birthdayCheck birthdayPrompt r4 with ⟨o5, t5, r5⟩
                          simp only [hg5] at ho5 ⊢
                          have ho5e : o = o5 := by
                            rcases List.mem_cons.mp ho5 with rfl | hz
                            · rfl
                            · cases hz
                          rw [ho5e] at hP
                          rcases o5 with v5 | _ | _ | _
                          · simp at hP
                          · simp [pyRet]
                          · simp [pyRet]
                          · simp [pyRet]
                    · simp [pyRet]
                    · simp [pyRet]
                    · simp [pyRet]
              · simp [pyRet]
              · simp [pyRet]
              · simp [pyRet]
        · simp [pyRet]
        · simp [pyRet]
        · simp [pyRet]
  · simp [pyRet]
  · simp [pyRet]
  · simp [pyRet]

/-- The guarded name prompt accepts `Bob` (events and leftover input shown
explicitly). -/
theorem rg_Bob : runGuarded nameCheck namePrompt ["Bob", "cancel"] =
    (GOutcome.accepted "Bob", [Ev.shown namePrompt], ["cancel"]) := by
  rw [runGuarded, sc_Bob]
  decide

/-- The guarded phone prompt is cancelled by the line `cancel`. -/
theorem rg_cancel : runGuarded phoneCheck phonePrompt ["cancel"] =
    (GOutcome.cancelled, [Ev.shown phonePrompt, Ev.cancelNote], []) := by
  rw [runGuarded, sc_cancel]
  decide

/-- The call outcomes of the add-contact flow on `Bob`, `cancel`. -/
theorem co_Bob_cancel : contactOutcomes ["Bob", "cancel"] =
    [GOutcome.accepted "Bob", GOutcome.cancelled] := by
  simp only [contactOutcomes, rg_Bob, rg_cancel, String.reduceEq, if_false,
    ite_false, reduceIte]

/-- C5 witness: the sequence `Bob`, `cancel` accepts the name and cancels at
the phone prompt; the book stays empty. -/
theorem no_partial_commit_witness :
    (∃ o ∈ contactOutcomes ["Bob", "cancel"],
      o = GOutcome.exited ∨ o = GOutcome.cancelled) ∧
      addContactFlow ["Bob", "cancel"] ([] : List (String × RecordV)) = [] := by
  have h : ∃ o ∈ contactOutcomes ["Bob", "cancel"],
      o = GOutcome.exited ∨ o = GOutcome.cancelled := by
    rw [co_Bob_cancel]
    exact ⟨GOutcome.cancelled, by simp, Or.inr rfl⟩
  exact ⟨h, no_partial_commit ["Bob", "cancel"] [] h⟩

/-- The `j2len` chain value the DP computes at cell `(i, j)` when both
sequences are `x`: the length of the common suffix of `x[..i]` and `x[..j]`
restricted to positions surviving in `b2j`. -/
def chainD (x : List Char) : Nat → Nat → Nat
  | 0, j => if j ∈ b2j x (x.getD 0 ' ') then 1 else 0
  | i + 1, 0 => if 0 ∈ b2j x (x.getD (i + 1) ' ') then 1 else 0
  | i + 1, j + 1 =>
    if j + 1 ∈ b2j x (x.getD (i + 1) ' ') then chainD x i j + 1 else 0

theorem mem_b2j {x : List Char} {j : Nat} {c : Char} (h : j ∈ b2j x c) :
    j < x.length ∧ x.getD j ' ' = c := by
  rw [b2j] at h
  split at h
  · cases h
  · rw [positions] at h
    have h2 := List.mem_filter.mp h
    exact ⟨List.mem_range.mp h2.1, of_decide_eq_true h2.2⟩

theorem mem_b2j_of {x : List Char} {j i : Nat} {c : Char} (h : j ∈ b2j x c)
    (hi : i < x.length) (he : x.getD i ' ' = c) : i ∈ b2j x c := by
  simp only [b2j] at h ⊢
  by_cases hp : 200 ≤ x.length ∧ x.length / 100 + 1 < (positions x c).length
  · rw [if_pos hp] at h
    cases h
  · rw [if_neg hp] at h ⊢
    rw [positions]
    exact List.mem_filter.mpr ⟨List.mem_range.mpr hi, decide_eq_true he⟩

theorem chainD_of_not_mem {x : List Char} {i j : Nat}
    (h : j ∉ b2j x (x.getD i ' ')) : chainD x i j = 0 := by
  match i, j with
  | 0, j => rw [chainD, if_neg h]
  | i + 1, 0 => rw [chainD, if_neg h]
  | i + 1, j + 1 => rw [chainD, if_neg h]

theorem chainD_zero_right {x : List Char} {i : Nat}
    (h : 0 ∈ b2j x (x.getD i ' ')) : chainD x i 0 = 1 := by
  match i with
  | 0 => rw [chainD, if_pos h]
  | i + 1 => rw [chainD, if_pos h]

theorem chainD_le_succ (x : List Char) : ∀ i j, chainD x i j ≤ i + 1
  | 0, j => by
    rw [chainD]
    split
    · exact le_refl 1
    · exact Nat.zero_le 1
  | i + 1, 0 => by
    rw [chainD]
    split
    · omega
    · omega
  | i + 1, j + 1 => by
    rw [chainD]
    split
    · have := chainD_le_succ x i j
      omega
    · omega

theorem mem_b2j_comm {x : List Char} {i j : Nat} (hi : i < x.length)
    (hj : j < x.length) :
    j ∈ b2j x (x.getD i ' ') ↔ i ∈ b2j x (x.getD j ' ') := by
  constructor
  · intro h
    have he := (mem_b2j h).2
    rw [he]
    exact mem_b2j_of h hi rfl
  · intro h
    have he := (mem_b2j h).2
    rw [he]
    exact mem_b2j_of h hj rfl

theorem chainD_symm (x : List Char) :
    ∀ i j, i < x.length → j < x.length → chainD x i j = chainD x j i
  | 0, 0, _, _ => rfl
  | 0, j + 1, hi, hj => by
    rw [chainD, chainD]
    by_cases h : j + 1 ∈ b2j x (x.getD 0 ' ')
    · rw [if_pos h, if_pos ((mem_b2j_comm hi hj).mp h)]
    · rw [if_neg h, if_neg (fun h2 => h ((mem_b2j_comm hj hi).mp h2))]
  | i + 1, 0, hi, hj => by
    rw [chainD, chainD]
    by_cases h : 0 ∈ b2j x (x.getD (i + 1) ' ')
    · rw [if_pos h, if_pos ((mem_b2j_comm hi hj).mp h)]
    · rw [if_neg h, if_neg (fun h2 => h ((mem_b2j_comm hj hi).mp h2))]
  | i + 1, j + 1, hi, hj => by
    rw [chainD, chainD]
    by_cases h : j + 1 ∈ b2j x (x.getD (i + 1) ' ')
    · rw [if_pos h, if_pos ((mem_b2j_comm hi hj).mp h),
        chainD_symm x i j (by omega) (by omega)]
    · rw [if_neg h, if_neg (fun h2 => h ((mem_b2j_comm hj hi).mp h2))]

theorem chainD_le_diag (x : List Char) :
    ∀ i j, i < x.length → chainD x i j ≤ chainD x i i
  | 0, j, hi => by
    by_cases h : j ∈ b2j x (x.getD 0 ' ')
    · have h0 : 0 ∈ b2j x (x.getD 0 ' ') := mem_b2j_of h hi rfl
      rw [chainD, chainD, if_pos h, if_pos h0]
    · rw [chainD, if_neg h]
      exact Nat.zero_le _
  | i + 1, 0, hi => by
    by_cases h : 0 ∈ b2j x (x.getD (i + 1) ' ')
    · have hd : i + 1 ∈ b2j x (x.getD (i + 1) ' ') := mem_b2j_of h hi rfl
      rw [chainD, chainD, if_pos h, if_pos hd]
      omega
    · rw [chainD, if_neg h]
      exact Nat.zero_le _
  | i + 1, j + 1, hi => by
    by_cases h : j + 1 ∈ b2j x (x.getD (i + 1) ' ')
    · have hd : i + 1 ∈ b2j x (x.getD (i + 1) ' ') := mem_b2j_of h hi rfl
      rw [chainD, chainD, if_pos h, if_pos hd]
      have := chainD_le_diag x i j (by omega)
      omega
    · rw [chainD, if_neg h]
      exact Nat.zero_le _


theorem b2j_pairwise (x : List Char) (c : Char) : (b2j x c).Pairwise (· < ·) := by
  simp only [b2j]
  split
  · exact List.Pairwise.nil
  · rw [positions]
    exact List.Pairwise.sublist (List.filter_sublist _) (List.pairwise_lt_range _)

theorem innerJ_self (x : List Char) (i : Nat) (hi : i < x.length)
    (prev : Nat → Nat)
    (hprev : ∀ jj, jj + 1 ∈ b2j x (x.getD i ' ') →
      prev jj + 1 = chainD x i (jj + 1)) :
    ∀ js : List Nat, (∀ j ∈ js, j ∈ b2j x (x.getD i ' ')) →
      js.Pairwise (· < ·) →
      ∀ nj : Nat → Nat, (∀ t, t ∉ js → nj t = chainD x i t) →
      ∀ bi bs : Nat, bi + bs ≤ x.length →
      (∀ t, t < i → chainD x t t ≤ bs) →
      (i ∉ js → chainD x i i ≤ bs) →
      ∃ d s,
        (innerJ 0 x.length i js prev nj (bi, bi, bs)).2 = (d, d, s) ∧
        (∀ t, (innerJ 0 x.length i js prev nj (bi, bi, bs)).1 t = chainD x i t) ∧
        d + s ≤ x.length ∧ (∀ t, t < i → chainD x t t ≤ s) ∧
        chainD x i i ≤ s
  | [], hsub, hsort, nj, hnj, bi, bs, hbound, hmax, hdone =>
    ⟨bi, bs, rfl, fun t => hnj t (List.not_mem_nil t), hbound, hmax,
      hdone (List.not_mem_nil i)⟩
  | j :: js, hsub, hsort, nj, hnj, bi, bs, hbound, hmax, hdone => by
    have hjrow : j ∈ b2j x (x.getD i ' ') := hsub j (List.mem_cons_self j js)
    have hjn : j < x.length := (mem_b2j hjrow).1
    have hkEq : (if j = 0 then 0 else prev (j - 1)) + 1 = chainD x i j := by
      by_cases hj0 : j = 0
      · subst hj0
        rw [if_pos rfl, chainD_zero_right hjrow]
      · obtain ⟨jj, rfl⟩ := Nat.exists_eq_succ_of_ne_zero hj0
        rw [if_neg hj0, Nat.succ_sub_one]
        exact hprev jj hjrow
    simp only [innerJ, if_neg (Nat.not_lt_zero j), if_neg (not_le.mpr hjn), hkEq]
    rcases lt_trichotomy j i with hji | hji | hji
    · have hle : chainD x i j ≤ bs :=
        le_trans (le_of_eq (chainD_symm x i j hi hjn))
          (le_trans (chainD_le_diag x j i hjn) (hmax j hji))
      rw [if_neg (not_lt.mpr hle)]
      exact innerJ_self x i hi prev hprev js
        (fun t ht => hsub t (List.mem_cons_of_mem j ht))
        (List.Pairwise.of_cons hsort)
        _
        (fun t ht => by
          by_cases htj : t = j
          · rw [if_pos htj, htj]
          · rw [if_neg htj]
            exact hnj t (fun hmem => (List.mem_cons.mp hmem).elim htj ht))
        bi bs hbound hmax
        (fun hni => hdone (fun hmem =>
          (List.mem_cons.mp hmem).elim (fun h => absurd h.symm (Nat.ne_of_lt hji))
            hni))
    · rw [hji]
      by_cases hlt : bs < chainD x i i
      · rw [if_pos hlt]
        have hc := chainD_le_succ x i i
        exact innerJ_self x i hi prev hprev js
          (fun t ht => hsub t (List.mem_cons_of_mem j ht))
          (List.Pairwise.of_cons hsort)
          _
          (fun t ht => by
            by_cases hti : t = i
            · rw [if_pos hti, hti]
            · rw [if_neg hti]
              exact hnj t (fun hmem => (List.mem_cons.mp hmem).elim
                (fun h => hti (h.trans hji)) ht))
          (i + 1 - chainD x i i) (chainD x i i)
          (by omega)
          (fun t ht => le_of_lt (lt_of_le_of_lt (hmax t ht) hlt))
          (fun _ => le_refl _)
      · rw [if_neg hlt]
        exact innerJ_self x i hi prev hprev js
          (fun t ht => hsub t (List.mem_cons_of_mem j ht))
          (List.Pairwise.of_cons hsort)
          _
          (fun t ht => by
            by_cases hti : t = i
            · rw [if_pos hti, hti]
            · rw [if_neg hti]
              exact hnj t (fun hmem => (List.mem_cons.mp hmem).elim
                (fun h => hti (h.trans hji)) ht))
          bi bs hbound hmax (fun _ => not_lt.mp hlt)
    · have hinot : i ∉ j :: js := by
        intro hmem
        rcases List.mem_cons.mp hmem with heq | h2
        · omega
        · have hj2 := (List.pairwise_cons.mp hsort).1 i h2
          omega
      have hdi : chainD x i i ≤ bs := hdone hinot
      have hle : chainD x i j ≤ bs := le_trans (chainD_le_diag x i j hi) hdi
      rw [if_neg (not_lt.mpr hle)]
      exact innerJ_self x i hi prev hprev js
        (fun t ht => hsub t (List.mem_cons_of_mem j ht))
        (List.Pairwise.of_cons hsort)
        _
        (fun t ht => by
          by_cases htj : t = j
          · rw [if_pos htj, htj]
          · rw [if_neg htj]
            exact hnj t (fun hmem => (List.mem_cons.mp hmem).elim htj ht))
        bi bs hbound hmax (fun _ => hdi)

/-- The content of `j2len` after processing rows `0 .. m-1` of the DP loop on
`(x, x)`: row `m-1` of the chain-length table (and the zero function before
any row has run). -/
def dpRow (x : List Char) : Nat → Nat → Nat
  | 0, _ => 0
  | m + 1, t => chainD x m t

theorem dpRow_hprev (x : List Char) (m : Nat) :
    ∀ jj, jj + 1 ∈ b2j x (x.getD m ' ') → dpRow x m jj + 1 = chainD x m (jj + 1) := by
  intro jj hmem
  match m with
  | 0 => rw [dpRow, chainD, if_pos hmem]
  | m + 1 => rw [dpRow, chainD, if_pos hmem]

/-- The accumulator of the `find_longest_match` DP loop on `(x, x)` after the
first `m` rows. -/
def flmAcc (x : List Char) (m : Nat) : (Nat → Nat) × (Nat × Nat × Nat) :=
  (List.range m).foldl
    (fun acc i => innerJ 0 x.length i (b2j x (x.getD i ' ')) acc.1 (fun _ => 0) acc.2)
    (fun _ => 0, (0, 0, 0))

theorem flmAcc_succ (x : List Char) (m : Nat) :
    flmAcc x (m + 1) =
      innerJ 0 x.length m (b2j x (x.getD m ' ')) (flmAcc x m).1 (fun _ => 0)
        (flmAcc x m).2 := by
  rw [flmAcc, flmAcc, List.range_succ, List.foldl_append, List.foldl_cons,
    List.foldl_nil]

theorem flmAcc_eq_flmLoop (x : List Char) :
    flmLoop x x 0 x.length 0 x.length = flmAcc x x.length := by
  rw [flmLoop, flmAcc, Nat.sub_zero, List.range_eq_range']

theorem flmAcc_self (x : List Char) :
    ∀ m, m ≤ x.length →
      ∃ d s, (flmAcc x m).2 = (d, d, s) ∧
        (∀ t, (flmAcc x m).1 t = dpRow x m t) ∧
        d + s ≤ x.length ∧ (∀ t, t < m → chainD x t t ≤ s)
  | 0, _ => by
    refine ⟨0, 0, ?_, ?_, Nat.zero_le _, fun t ht => absurd ht (Nat.not_lt_zero t)⟩
    · rw [flmAcc, List.range_zero, List.foldl_nil]
    · intro t
      rw [flmAcc, List.range_zero, List.foldl_nil, dpRow]
  | m + 1, hm => by
    obtain ⟨d, s, h2, h1, hds, hmax⟩ := flmAcc_self x m (Nat.le_of_succ_le hm)
    obtain ⟨d2, s2, k2, k1, kds, kmax, kdi⟩ :=
      innerJ_self x m hm (flmAcc x m).1
        (fun jj hmem => by rw [h1 jj]; exact dpRow_hprev x m jj hmem)
        (b2j x (x.getD m ' '))
        (fun j hj => hj)
        (b2j_pairwise x (x.getD m ' '))
        (fun _ => 0)
        (fun t ht => (chainD_of_not_mem ht).symm)
        d s hds hmax
        (fun hnot => by rw [chainD_of_not_mem hnot]; exact Nat.zero_le s)
    refine ⟨d2, s2, ?_, ?_, kds, ?_⟩
    · rw [flmAcc_succ, h2]
      exact k2
    · intro t
      rw [flmAcc_succ, h2, k1 t, dpRow]
    · intro t ht
      rcases Nat.lt_succ_iff_lt_or_eq.mp ht with h | h
      · exact kmax t h
      · rw [h]
        exact kdi

theorem extLeft_zero (a b : List Char) (alo blo : Nat) (keep : Char → Bool)
    (bj bs : Nat) : extLeft a b alo blo keep 0 bj bs = (0, bj, bs) := by
  rw [extLeft]

theorem extLeft_diag (x : List Char) :
    ∀ d s, extLeft x x 0 0 (fun c => !bjunk c) d d s = (0, 0, d + s)
  | 0, s => by rw [extLeft, Nat.zero_add]
  | d + 1, s => by
    rw [extLeft, if_pos ⟨Nat.succ_pos d, Nat.succ_pos d, rfl, rfl⟩]
    have harith : d + 1 + s = d + (s + 1) := by omega
    rw [harith]
    show extLeft x x 0 0 (fun c => !bjunk c) d d (s + 1) = (0, 0, d + (s + 1))
    exact extLeft_diag x d (s + 1)

theorem extRight_diag (x : List Char) :
    ∀ fuel s, s ≤ x.length → x.length ≤ fuel + s →
      extRight x x x.length x.length (fun c => !bjunk c) 0 0 fuel s = x.length
  | 0, s, h1, h2 => by
    rw [extRight]
    omega
  | fuel + 1, s, h1, h2 => by
    by_cases hs : s < x.length
    · rw [extRight, if_pos ⟨by omega, by omega, rfl, rfl⟩]
      exact extRight_diag x fuel (s + 1) (by omega) (by omega)
    · rw [extRight, if_neg (fun hc => hs (by omega))]
      omega

theorem extRight_junk (a b : List Char) (ahi bhi bi bj : Nat) :
    ∀ fuel bs, extRight a b ahi bhi bjunk bi bj fuel bs = bs
  | 0, bs => by rw [extRight]
  | fuel + 1, bs => by
    rw [extRight, if_neg (fun hc => Bool.false_ne_true hc.2.2.1)]

theorem flm_self (x : List Char) :
    find_longest_match x x 0 x.length 0 x.length = (0, 0, x.length) := by
  obtain ⟨d, s, h2, h1, hds, hmax⟩ := flmAcc_self x x.length le_rfl
  have her : extRight x x x.length x.length (fun c => !bjunk c) 0 0 x.length
      (d + s) = x.length :=
    extRight_diag x x.length (d + s) hds (Nat.le_add_right _ _)
  rw [find_longest_match]
  simp only [flmAcc_eq_flmLoop, h2, extLeft_diag, her, extLeft_zero,
    extRight_junk]

theorem matchesTotal_self (x : List Char) (hx : x ≠ []) :
    matchesTotal x x = x.length := by
  have hn : 0 < x.length := List.length_pos.mpr hx
  rw [matchesTotal, mblocks]
  simp only [flm_self]
  simp [hn.ne']

/-- C8: for any nonempty string, the similarity score of the string with
itself is exactly 1. -/
theorem self_similarity_one (x : String) (hx : x ≠ "") : similar x x = 1 := by
  have hd : x.data ≠ [] := by
    intro h
    apply hx
    cases x with
    | mk l =>
      cases h
      rfl
  have hn : 0 < x.data.length := List.length_pos.mpr hd
  rw [similar, ratioQ_eq_div x.data x.data (by omega), matchesTotal_self x.data hd]
  rw [show ((x.data.length + x.data.length : ℕ) : ℚ) = 2 * (x.data.length : ℚ) from
    by push_cast; ring]
  exact div_self (mul_ne_zero two_ne_zero (Nat.cast_ne_zero.mpr hn.ne'))

theorem self_similarity_one_witness : ("a" : String) ≠ "" ∧ similar "a" "a" = 1 :=
  ⟨by decide, self_similarity_one "a" (by decide)⟩


end PersonalAssist
